import Mathlib

/-!
Verification development for the Caption Edit Tool (caption-edit.py), a bulk
text-file editor: substring replacement plus optional prepend/append over a
set of .txt files discovered under a directory, written in place or to a
mirrored output directory.

Paths are modelled as lists of components. The filesystem is modelled as an
association list of file paths to contents plus a list of existing directory
paths. Python string substitution (str.replace) is modelled character-list
wise with a fuel argument so that every definition is structurally recursive
and evaluates by rfl.
-/

namespace CaptionEdit

/-- One step list of the Python str.replace scan for an empty pattern:
"ab".replace("", "X") = "XaXbX" (the replacement is inserted before every
character and once at the end). -/
def replaceEmptyL (s : List Char) : List Char → List Char
  | [] => s
  | c :: rest => s ++ c :: replaceEmptyL s rest

/-- Fuelled left-to-right scan of Python str.replace for a non-empty pattern
t: at each position, if t is a prefix of the remaining input, emit the
replacement s and skip over the matched characters (non-overlapping);
otherwise keep the current character and advance by one. Fuel at least the
length of the input makes the recursion structural. -/
def replaceGoF (t s : List Char) : Nat → List Char → List Char
  | 0, l => l
  | _ + 1, [] => []
  | fuel + 1, c :: rest =>
    if t.isPrefixOf (c :: rest) then
      s ++ replaceGoF t s fuel (List.drop (t.length - 1) rest)
    else
      c :: replaceGoF t s fuel rest

/-- Python str.replace on character lists: content.replace(target, swap). -/
def replaceL (l t s : List Char) : List Char :=
  if t.isEmpty then replaceEmptyL s l else replaceGoF t s l.length l

/-- Python str.replace on strings: content.replace(target, swap),
as used at line 84 of caption-edit.py. -/
def strReplace (content target swap : String) : String :=
  ⟨replaceL content.data target.data swap.data⟩

/-- Python `t in s` on character lists: t occurs as a contiguous substring. -/
def containsSub (t : List Char) : List Char → Bool
  | [] => t.isEmpty
  | c :: rest => t.isPrefixOf (c :: rest) || containsSub t rest

/-- edit_file_content (caption-edit.py lines 69-94): replace target with
swap, then prepend if the prepend argument is truthy (neither None nor the
empty string), then append likewise. -/
def edit_file_content (content target swap : String)
    (prependArg appendArg : Option String) : String :=
  let m1 := strReplace content target swap
  let m2 := match prependArg with
    | some p => if p.isEmpty then m1 else p ++ m1
    | none => m1
  let m3 := match appendArg with
    | some a => if a.isEmpty then m2 else m2 ++ a
    | none => m2
  m3

/-- A filesystem path, as its list of components (no separators). -/
abbrev FsPath := List String

/-- Render a path the way the script sees it in error messages. -/
def pathStr (p : FsPath) : String := String.intercalate "/" p

/-- Filesystem state: which regular files exist (with their contents) and
which directories exist. -/
structure FS where
  files : List (FsPath × String)
  dirs : List FsPath
  deriving DecidableEq

/-- Look up the content of a regular file. -/
def getFile : List (FsPath × String) → FsPath → Option String
  | [], _ => none
  | (q, c) :: rest, p => if q = p then some c else getFile rest p

/-- Store content at a path, overwriting an existing file or creating one. -/
def setFile : List (FsPath × String) → FsPath → String → List (FsPath × String)
  | [], p, c => [(p, c)]
  | (q, d) :: rest, p, c => if q = p then (p, c) :: rest else (q, d) :: setFile rest p c

/-- open(file_path, 'r') followed by .read(): succeeds with the content when
the file exists, otherwise raises (modelled as an error value carrying the
message Python would show for a missing file). -/
def readFS (fs : FS) (p : FsPath) : Except String String :=
  match getFile fs.files p with
  | some c => Except.ok c
  | none => Except.error ("No such file or directory: " ++ pathStr p)

/-- open(dest, 'w') followed by .write(content): succeeds when the parent
directory exists, otherwise raises. -/
def writeFS (fs : FS) (p : FsPath) (c : String) : Except String FS :=
  if fs.dirs.contains p.dropLast then
    Except.ok { fs with files := setFile fs.files p c }
  else
    Except.error ("No such file or directory: " ++ pathStr p)

/-- os.makedirs(d, exist_ok=True): the directory and all its ancestors exist
afterwards. -/
def makedirsFS (fs : FS) (d : FsPath) : FS :=
  { fs with dirs := fs.dirs ++ d.inits }

/-- s.endswith(post), character-list wise. -/
def strEndsWith (s post : String) : Bool := post.data.isSuffixOf s.data

/-- Name test of the glob pattern "*.txt" (fnmatch): the final component
ends in ".txt". -/
def txtName (p : FsPath) : Bool := strEndsWith (p.getLastD "") ".txt"

/-- p is a direct child of root. -/
def isDirectChild (root p : FsPath) : Bool :=
  p.length == root.length + 1 && root.isPrefixOf p

/-- p lies strictly below root, at any depth (what "**/*" ranges over). -/
def isDescendant (root p : FsPath) : Bool :=
  root.length < p.length && root.isPrefixOf p

/-- scan_directory (caption-edit.py lines 44-67): if the root does not exist
or is not a directory, return the empty list; otherwise glob "*.txt"
(direct children) or "**/*.txt" (any depth) under it. pathlib glob yields
every matching path of any kind, directories included, so both the file
entries and the directory entries of the filesystem are candidates. -/
def scan_directory (fs : FS) (root : FsPath) (recursive : Bool) : List FsPath :=
  if fs.dirs.contains root then
    (fs.files.map Prod.fst ++ fs.dirs).filter fun p =>
      (if recursive then isDescendant root p else isDirectChild root p) && txtName p
  else []

/-- Length of the longest common component run at the start of two paths. -/
def commonLen : List String → List String → Nat
  | a :: as, b :: bs => if a = b then commonLen as bs + 1 else 0
  | _, _ => 0

/-- os.path.relpath(p, start) on already absolute, normalised component
paths: strip the common leading components, then climb out of what remains
of start with ".." before descending into what remains of p. -/
def relpathP (p start : FsPath) : FsPath :=
  let i := commonLen p start
  List.replicate (start.length - i) ".." ++ p.drop i

/-- os.path.join(a, r) for a relative right operand: concatenation. -/
def joinP (a r : FsPath) : FsPath := a ++ r

/-- Destination Resolver (caption-edit.py lines 125-128, 136-138): with no
output directory the destination is the source path itself (in-place edit);
with one, it is the output directory joined with the source path taken
relative to the anchor. -/
def resolveDest (output_dir : Option FsPath) (anchor p : FsPath) : FsPath :=
  match output_dir with
  | none => p
  | some od => joinP od (relpathP p anchor)

/-- One iteration of the loop body of process_files (lines 116-145), for the
file at path: read, transform, resolve the destination, create the missing
destination directories when writing to an output directory, write. Any
failing step surfaces as Except.error with its message; the caller records
it. anchor is os.path.dirname(files[0]). -/
def processOne (anchor : FsPath) (target swap : String)
    (prependArg appendArg : Option String) (output_dir : Option FsPath)
    (fs : FS) (path : FsPath) : Except String FS :=
  match readFS fs path with
  | Except.error e => Except.error e
  | Except.ok content =>
    let modified := edit_file_content content target swap prependArg appendArg
    let dest := resolveDest output_dir anchor path
    match output_dir with
    | some _ => writeFS (makedirsFS fs dest.dropLast) dest modified
    | none => writeFS fs dest modified

/-- The loop of process_files with its accumulators: success count, error
count, error log, filesystem. A success advances the success count; a
failure advances the error count and appends one line naming the path and
the message, and the loop continues with the next file either way. -/
def processGo (anchor : FsPath) (target swap : String)
    (prependArg appendArg : Option String) (output_dir : Option FsPath) :
    List FsPath → Nat → Nat → List String → FS → Nat × Nat × List String × FS
  | [], sc, ec, log, fs => (sc, ec, log, fs)
  | p :: rest, sc, ec, log, fs =>
    match processOne anchor target swap prependArg appendArg output_dir fs p with
    | Except.ok fs' =>
      processGo anchor target swap prependArg appendArg output_dir rest (sc + 1) ec log fs'
    | Except.error e =>
      processGo anchor target swap prependArg appendArg output_dir rest sc (ec + 1)
        (log ++ ["Error processing " ++ pathStr p ++ ": " ++ e]) fs

/-- process_files (caption-edit.py lines 96-147). The relative-path anchor
os.path.dirname(files[0]) is written inside the loop in the script, but
files never changes there, so it is the one fixed value computed here. -/
def process_files (fs : FS) (files : List FsPath) (target swap : String)
    (prependArg appendArg : Option String) (output_dir : Option FsPath) :
    Nat × Nat × List String × FS :=
  processGo ((files.headD []).dropLast) target swap prependArg appendArg output_dir
    files 0 0 [] fs

/-- response.lower(), character-list wise. -/
def strLower (s : String) : String := ⟨s.data.map Char.toLower⟩

/-- confirm_operation (caption-edit.py lines 149-175), over the stream of
operator answers: accept y/yes (case-insensitively) as true and n/no as
false, and re-prompt on anything else; none models the stream running dry
(EOFError, fatal outside the per-file loop). -/
def confirm_operation : List String → Option Bool
  | [] => none
  | r :: rest =>
    let resp := strLower r
    if resp == "y" || resp == "yes" then some true
    else if resp == "n" || resp == "no" then some false
    else confirm_operation rest

/-- main (caption-edit.py lines 177-231), restricted to its filesystem
effect on the scanned tree: scan, stop if nothing was found, ask for
confirmation, and only on a yes run process_files. A no answer and an
exhausted input stream (fatal) both leave the filesystem unchanged. -/
def main (fs : FS) (inputs : List String) (path : FsPath)
    (target swap : String) (prependArg appendArg : Option String)
    (recursive : Bool) (output : Option FsPath) : FS :=
  let txt_files := scan_directory fs path recursive
  if txt_files.isEmpty then fs
  else
    match confirm_operation inputs with
    | some true => (process_files fs txt_files target swap prependArg appendArg output).2.2.2
    | some false => fs
    | none => fs

/-! ### Concrete scenario filesystems -/

/-- Three-file batch scenario: f1 and f3 exist under r, f2 does not. -/
def fsBatch : FS := ⟨[(["r", "f1.txt"], "ax"), (["r", "f3.txt"], "bx")], [["r"]]⟩

/-- Expected state after the batch: f1 and f3 rewritten in place. -/
def fsBatchAfter : FS := ⟨[(["r", "f1.txt"], "ay"), (["r", "f3.txt"], "by")], [["r"]]⟩

/-- Directory r whose direct children are the regular files a.txt, b.txt,
c.log. -/
def fsFlat : FS :=
  ⟨[(["r", "a.txt"], ""), (["r", "b.txt"], ""), (["r", "c.log"], "")], [["r"]]⟩

/-- The same directory with an additional subdirectory named d.txt. -/
def fsFlatDir : FS :=
  ⟨[(["r", "a.txt"], ""), (["r", "b.txt"], ""), (["r", "c.log"], "")],
    [["r"], ["r", "d.txt"]]⟩

/-- Two files in sibling subdirectories r/a and r/b, for the output-anchor
scenario. -/
def fsSib : FS :=
  ⟨[(["r", "a", "f1.txt"], "x1"), (["r", "b", "f2.txt"], "x2")],
    [["r"], ["r", "a"], ["r", "b"]]⟩

/-- A single readable file, for the destination-resolution witness. -/
def fsOne : FS := ⟨[(["r", "f.txt"], "x")], [["r"]]⟩

/-- State after processing fsOne with target "x", swap "y" and output root
o: the transformed copy lands at o/f.txt and the destination directories
exist. -/
def fsOneAfter : FS :=
  ⟨[(["r", "f.txt"], "x"), (["o", "f.txt"], "y")], [["r"], [], ["o"]]⟩

/-! ### Helper lemmas about the substitution model -/

theorem str_empty_append (s : String) : "" ++ s = s := by
  cases s
  rfl

theorem str_append_empty (s : String) : s ++ "" = s := by
  apply String.ext
  simp [String.data_append]

theorem str_append_assoc (a b c : String) : (a ++ b) ++ c = a ++ (b ++ c) := by
  apply String.ext
  simp [String.data_append]

theorem isPrefixOf_iff_exists (t l : List Char) :
    t.isPrefixOf l = true ↔ ∃ r, t ++ r = l := by
  induction t generalizing l with
  | nil =>
    simp [List.isPrefixOf]
  | cons a as ih =>
    cases l with
    | nil => simp [List.isPrefixOf]
    | cons b bs =>
      simp only [List.isPrefixOf, Bool.and_eq_true, beq_iff_eq, ih, List.cons_append,
        List.cons.injEq]
      constructor
      · rintro ⟨rfl, r, rfl⟩
        exact ⟨r, rfl, rfl⟩
      · rintro ⟨r, rfl, rfl⟩
        exact ⟨rfl, r, rfl⟩

theorem replaceGoF_fuel (t s : List Char) :
    ∀ (f f' : Nat) (l : List Char), l.length ≤ f → l.length ≤ f' →
      replaceGoF t s f l = replaceGoF t s f' l := by
  intro f
  induction f with
  | zero =>
    intro f' l hf _
    have hl : l = [] := List.eq_nil_of_length_eq_zero (Nat.le_zero.mp hf)
    subst hl
    cases f' <;> rfl
  | succ n ih =>
    intro f' l hf hf'
    cases l with
    | nil => cases f' <;> rfl
    | cons c rest =>
      cases f' with
      | zero => simp at hf'
      | succ m =>
        simp only [replaceGoF]
        by_cases hp : t.isPrefixOf (c :: rest) = true
        · simp only [if_pos hp]
          have hlen := List.length_drop (t.length - 1) rest
          have h1 : (List.drop (t.length - 1) rest).length ≤ n := by
            simp only [List.length_cons] at hf
            omega
          have h2 : (List.drop (t.length - 1) rest).length ≤ m := by
            simp only [List.length_cons] at hf'
            omega
          rw [ih m _ h1 h2]
        · simp only [if_neg hp]
          have h1 : rest.length ≤ n := by
            simp only [List.length_cons] at hf
            omega
          have h2 : rest.length ≤ m := by
            simp only [List.length_cons] at hf'
            omega
          rw [ih m rest h1 h2]

theorem isEmpty_false_of_ne_nil {t : List Char} (ht : t ≠ []) : t.isEmpty = false := by
  cases t with
  | nil => exact absurd rfl ht
  | cons a as => rfl

theorem replaceL_eq_goF (t s l : List Char) (ht : t ≠ []) :
    replaceL l t s = replaceGoF t s l.length l := by
  unfold replaceL
  simp [isEmpty_false_of_ne_nil ht]

/-- A leading occurrence of the target is replaced and scanning resumes
right after it. -/
theorem replaceL_head_match (t s r : List Char) (ht : t ≠ []) :
    replaceL (t ++ r) t s = s ++ replaceL r t s := by
  rw [replaceL_eq_goF _ _ _ ht, replaceL_eq_goF _ _ _ ht]
  cases t with
  | nil => exact absurd rfl ht
  | cons c t' =>
    have hpre : (c :: t').isPrefixOf (c :: (t' ++ r)) = true :=
      (isPrefixOf_iff_exists _ _).mpr ⟨r, rfl⟩
    have hcons : (c :: t') ++ r = c :: (t' ++ r) := rfl
    rw [hcons, List.length_cons]
    simp only [replaceGoF, if_pos hpre]
    congr 1
    have hdrop : List.drop ((c :: t').length - 1) (t' ++ r) = r := by
      simp only [List.length_cons, Nat.add_sub_cancel]
      exact List.drop_left t' r
    rw [hdrop]
    refine replaceGoF_fuel _ _ _ _ _ ?_ (Nat.le_refl _)
    rw [List.length_append]
    omega

/-- A position where the target does not match is copied unchanged. -/
theorem replaceL_head_nomatch (t s : List Char) (c : Char) (rest : List Char)
    (ht : t ≠ []) (hp : t.isPrefixOf (c :: rest) = false) :
    replaceL (c :: rest) t s = c :: replaceL rest t s := by
  rw [replaceL_eq_goF _ _ _ ht, replaceL_eq_goF _ _ _ ht]
  have hp' : ¬ t.isPrefixOf (c :: rest) = true := by simp [hp]
  simp only [List.length_cons, replaceGoF, if_neg hp']

/-- Content without any occurrence of the target is left unchanged. -/
theorem replaceL_of_not_contains (t s l : List Char) (ht : t ≠ [])
    (h : containsSub t l = false) : replaceL l t s = l := by
  induction l with
  | nil =>
    rw [replaceL_eq_goF _ _ _ ht]
    rfl
  | cons c rest ih =>
    simp only [containsSub, Bool.or_eq_false_iff] at h
    rw [replaceL_head_nomatch t s c rest ht h.1, ih h.2]

theorem replaceGoF_self (t : List Char) (ht : t ≠ []) :
    ∀ (f : Nat) (l : List Char), l.length ≤ f → replaceGoF t t f l = l := by
  intro f
  induction f with
  | zero => intro l _; rfl
  | succ n ih =>
    intro l hl
    cases l with
    | nil => rfl
    | cons c rest =>
      simp only [replaceGoF]
      by_cases hp : t.isPrefixOf (c :: rest) = true
      · simp only [if_pos hp]
        obtain ⟨u, hu⟩ := (isPrefixOf_iff_exists _ _).mp hp
        have htlen : 1 ≤ t.length := by
          cases t with
          | nil => exact absurd rfl ht
          | cons a as => simp
        have hdrop : List.drop (t.length - 1) rest = u := by
          have h1 : List.drop t.length (c :: rest) = u := by
            rw [← hu]
            exact List.drop_left t u
          obtain ⟨k, hk⟩ : ∃ k, t.length = k + 1 := ⟨t.length - 1, by omega⟩
          rw [hk] at h1
          rw [List.drop_succ_cons] at h1
          rw [hk]
          simpa using h1
        rw [hdrop]
        have hulen : u.length ≤ n := by
          have := congrArg List.length hu
          simp only [List.length_append, List.length_cons] at this hl
          omega
        rw [ih u hulen]
        exact hu
      · simp only [if_neg hp]
        have : rest.length ≤ n := by
          simp only [List.length_cons] at hl
          omega
        rw [ih rest this]

/-- Replacing a target with itself is the identity. -/
theorem replaceL_self (t l : List Char) (ht : t ≠ []) : replaceL l t t = l := by
  rw [replaceL_eq_goF _ _ _ ht]
  exact replaceGoF_self t ht _ l (Nat.le_refl _)

/-- The truthiness test on the prepend argument never changes the value:
skipping an empty string is the same as concatenating it. -/
theorem truthy_pre (p m : String) : (if p.isEmpty then m else p ++ m) = p ++ m := by
  by_cases h : p.isEmpty = true
  · have hp : p = "" := (String.isEmpty_iff p).mp h
    subst hp
    rw [if_pos h, str_empty_append]
  · rw [if_neg h]

/-- Likewise for the append argument. -/
theorem truthy_app (a m : String) : (if a.isEmpty then m else m ++ a) = m ++ a := by
  by_cases h : a.isEmpty = true
  · have ha : a = "" := (String.isEmpty_iff a).mp h
    subst ha
    rw [if_pos h, str_append_empty]
  · rw [if_neg h]

/-- Accumulator invariant of the batch loop: the final success and error
counters account for every processed file, and the log grows by exactly one
line per error. -/
theorem processGo_counts (anchor : FsPath) (target swap : String)
    (prependArg appendArg : Option String) (output_dir : Option FsPath) :
    ∀ (rest : List FsPath) (sc ec : Nat) (log : List String) (fs : FS),
      (processGo anchor target swap prependArg appendArg output_dir rest sc ec log fs).1 +
          (processGo anchor target swap prependArg appendArg output_dir rest sc ec log fs).2.1 =
        sc + ec + rest.length ∧
      (processGo anchor target swap prependArg appendArg output_dir rest sc ec log fs).2.2.1.length +
          ec =
        log.length +
          (processGo anchor target swap prependArg appendArg output_dir rest sc ec log fs).2.1 := by
  intro rest
  induction rest with
  | nil =>
    intro sc ec log fs
    simp [processGo]
  | cons p ps ih =>
    intro sc ec log fs
    simp only [processGo]
    cases hstep : processOne anchor target swap prependArg appendArg output_dir fs p with
    | ok fs' =>
      obtain ⟨h1, h2⟩ := ih (sc + 1) ec log fs'
      refine ⟨?_, ?_⟩ <;> simp only [List.length_cons] <;> omega
    | error e =>
      obtain ⟨h1, h2⟩ :=
        ih sc (ec + 1) (log ++ ["Error processing " ++ pathStr p ++ ": " ++ e]) fs
      simp only [List.length_append, List.length_cons, List.length_nil] at h2
      refine ⟨?_, ?_⟩ <;> simp only [List.length_cons] <;> omega

/-! ### Claims -/

/-- C2: for every content c, target t, replacement s and optional prefix p
and suffix a, the Content Transform is the suffix appended to the prefix
prepended to the substitution result, an absent part contributing nothing:
substitution happens first, then the prefix, then the suffix. -/
theorem c2_transform_order (c t s : String) (p a : Option String) :
    edit_file_content c t s p a = ((p.getD "") ++ strReplace c t s) ++ (a.getD "") := by
  cases p with
  | none =>
    cases a with
    | none =>
      simp only [edit_file_content, Option.getD_none]
      rw [str_empty_append, str_append_empty]
    | some a' =>
      simp only [edit_file_content, Option.getD_none, Option.getD_some, truthy_app]
      rw [str_empty_append]
  | some p' =>
    cases a with
    | none =>
      simp only [edit_file_content, Option.getD_none, Option.getD_some, truthy_pre]
      rw [str_append_empty]
    | some a' =>
      simp only [edit_file_content, Option.getD_some, truthy_pre, truthy_app]

/-- C3: the Content Transform performs literal left-to-right non-overlapping
substring replacement: a leading occurrence of the (non-empty) target is
replaced and scanning resumes right after the replaced span, a non-matching
position is copied unchanged, content without an occurrence is left intact,
and the end-to-end example is transform of "hello world" with target
"world", swap "there" and prepended ">> " giving ">> hello there". -/
theorem c3_literal_replacement :
    (∀ (t s r : List Char), t ≠ [] → replaceL (t ++ r) t s = s ++ replaceL r t s) ∧
    (∀ (t s : List Char) (c : Char) (rest : List Char), t ≠ [] →
      t.isPrefixOf (c :: rest) = false → replaceL (c :: rest) t s = c :: replaceL rest t s) ∧
    (∀ (t s l : List Char), t ≠ [] → containsSub t l = false → replaceL l t s = l) ∧
    edit_file_content "hello world" "world" "there" (some ">> ") none = ">> hello there" := by
  refine ⟨?_, ?_, ?_, rfl⟩
  · intro t s r ht
    exact replaceL_head_match t s r ht
  · intro t s c rest ht hp
    exact replaceL_head_nomatch t s c rest ht hp
  · intro t s l ht h
    exact replaceL_of_not_contains t s l ht h

theorem c3_literal_replacement_witness :
    replaceL (['a', 'b'] ++ ['c']) ['a', 'b'] ['x'] = ['x'] ++ replaceL ['c'] ['a', 'b'] ['x'] ∧
    replaceL ['q', 'a'] ['a'] ['x'] = 'q' :: replaceL ['a'] ['a'] ['x'] ∧
    replaceL ['z'] ['a'] ['x'] = ['z'] :=
  ⟨c3_literal_replacement.1 ['a', 'b'] ['x'] ['c'] (by decide),
   c3_literal_replacement.2.1 ['a'] ['x'] 'q' ['a'] (by decide) (by decide),
   c3_literal_replacement.2.2.1 ['a'] ['x'] ['z'] (by decide) (by decide)⟩

/-- C4 as stated is false: replacing "ab" by "b" in "aab" gives "ab" and a
second application gives "b", even though the target "ab" does not occur in
the replacement "b" — the first application may create a fresh occurrence
spanning the boundary of a replaced span. -/
theorem c4_counterexample :
    containsSub ("ab" : String).data ("b" : String).data = false ∧
    edit_file_content "aab" "ab" "b" none none = "ab" ∧
    edit_file_content (edit_file_content "aab" "ab" "b" none none) "ab" "b" none none = "b" ∧
    edit_file_content (edit_file_content "aab" "ab" "b" none none) "ab" "b" none none ≠
      edit_file_content "aab" "ab" "b" none none := by
  refine ⟨rfl, rfl, rfl, ?_⟩
  decide

/-- C4 amended: with no prefix or suffix and a non-empty target, a second
application of the transform leaves the result unchanged whenever the
target does not occur in the once-transformed content. The absence of the
target from the replacement is neither sufficient for this (see the
counterexample) nor necessary: a target equal to its replacement occurs in
it, yet the transform is then the identity and hence idempotent. -/
theorem c4_idempotence_amended (c t s : String) (ht : t.data ≠ [])
    (h : containsSub t.data (strReplace c t s).data = false) :
    (edit_file_content (edit_file_content c t s none none) t s none none =
      edit_file_content c t s none none) ∧
    (∀ c' : String,
      edit_file_content (edit_file_content c' "a" "a" none none) "a" "a" none none =
        edit_file_content c' "a" "a" none none) ∧
    containsSub ("a" : String).data ("a" : String).data = true := by
  refine ⟨?_, ?_, rfl⟩
  · show String.mk (replaceL (strReplace c t s).data t.data s.data) = strReplace c t s
    exact congrArg String.mk (replaceL_of_not_contains t.data s.data _ ht h)
  · intro c'
    have hid : ∀ x : String, strReplace x "a" "a" = x := by
      intro x
      show String.mk (replaceL x.data ['a'] ['a']) = x
      rw [replaceL_self ['a'] x.data (by decide)]
    show strReplace (strReplace c' "a" "a") "a" "a" = strReplace c' "a" "a"
    rw [hid, hid]

theorem c4_idempotence_amended_witness :
    edit_file_content (edit_file_content "hello world" "world" "there" none none)
        "world" "there" none none =
      edit_file_content "hello world" "world" "there" none none :=
  (c4_idempotence_amended "hello world" "world" "there" (by decide) (by decide)).1

/-- C5: File Discovery on a root that does not exist as a directory (it is
missing altogether or is not a directory) returns the empty list, whatever
the recursive flag; being a total function it raises nothing. -/
theorem c5_scan_missing_root (fs : FS) (root : FsPath) (recursive : Bool)
    (h : fs.dirs.contains root = false) :
    scan_directory fs root recursive = [] := by
  unfold scan_directory
  rw [if_neg]
  intro hc
  rw [h] at hc
  exact Bool.false_ne_true hc

theorem c5_scan_missing_root_witness :
    scan_directory ⟨[], []⟩ ["nowhere"] true = [] ∧
    scan_directory fsFlat ["missing"] false = [] :=
  ⟨c5_scan_missing_root ⟨[], []⟩ ["nowhere"] true (by decide),
   c5_scan_missing_root fsFlat ["missing"] false (by decide)⟩

/-- Writing then reading the same path yields the written content. -/
theorem getFile_setFile (fl : List (FsPath × String)) (p : FsPath) (c : String) :
    getFile (setFile fl p c) p = some c := by
  induction fl with
  | nil => simp [setFile, getFile]
  | cons qd rest ih =>
    obtain ⟨q, d⟩ := qd
    by_cases hq : q = p
    · subst hq
      simp [setFile, getFile]
    · simp [setFile, getFile, hq, ih]

/-- C1: a failing file is recorded as exactly one failure entry naming its
path and the error message and the loop continues with the remaining files;
concretely, the 3-file batch in which only file 2 is unreadable yields two
successes, one failure, a log whose single entry references r/f2.txt, and
the other two files rewritten. -/
theorem c1_per_file_isolation :
    (∀ (anchor : FsPath) (target swap : String) (prependArg appendArg : Option String)
      (output_dir : Option FsPath) (p : FsPath) (rest : List FsPath) (sc ec : Nat)
      (log : List String) (fs : FS) (e : String),
      processOne anchor target swap prependArg appendArg output_dir fs p = Except.error e →
      processGo anchor target swap prependArg appendArg output_dir (p :: rest) sc ec log fs =
        processGo anchor target swap prependArg appendArg output_dir rest sc (ec + 1)
          (log ++ ["Error processing " ++ pathStr p ++ ": " ++ e]) fs) ∧
    process_files fsBatch [["r", "f1.txt"], ["r", "f2.txt"], ["r", "f3.txt"]] "x" "y"
        none none none =
      (2, 1, ["Error processing r/f2.txt: No such file or directory: r/f2.txt"],
        fsBatchAfter) := by
  constructor
  · intro anchor target swap prependArg appendArg output_dir p rest sc ec log fs e h
    simp only [processGo, h]
  · rfl

theorem c1_per_file_isolation_witness :
    processGo [] "x" "y" none none none [["q.txt"]] 0 0 [] ⟨[], []⟩ =
      processGo [] "x" "y" none none none [] 0 (0 + 1)
        ([] ++ ["Error processing " ++ pathStr ["q.txt"] ++ ": " ++
          "No such file or directory: q.txt"]) ⟨[], []⟩ :=
  c1_per_file_isolation.1 [] "x" "y" none none none ["q.txt"] [] 0 0 [] ⟨[], []⟩
    "No such file or directory: q.txt" (by rfl)

/-- C6 as stated is false: the glob pattern also matches a direct child
that is a directory whose name ends in .txt, so discovery does not return
only files. In fsFlatDir the subdirectory r/d.txt is returned although no
regular file exists at that path. -/
theorem c6_counterexample :
    ["r", "d.txt"] ∈ scan_directory fsFlatDir ["r"] false ∧
    getFile fsFlatDir.files ["r", "d.txt"] = none ∧
    fsFlatDir.dirs.contains ["r", "d.txt"] = true := by
  refine ⟨?_, rfl, rfl⟩
  decide

/-- C6 amended: non-recursive discovery on an existing directory returns
exactly the direct children entries of any kind, directories included,
whose name ends in .txt; in a directory whose matching children are all
regular files this is exactly the .txt files, and on direct children a.txt,
b.txt, c.log it returns a.txt and b.txt. -/
theorem c6_scan_flat_amended (fs : FS) (root p : FsPath)
    (h : fs.dirs.contains root = true) :
    (p ∈ scan_directory fs root false ↔
      (p ∈ fs.files.map Prod.fst ∨ p ∈ fs.dirs) ∧
        isDirectChild root p = true ∧ txtName p = true) ∧
    scan_directory fsFlat ["r"] false = [["r", "a.txt"], ["r", "b.txt"]] := by
  constructor
  · unfold scan_directory
    rw [if_pos h, List.mem_filter]
    simp only [List.mem_append, Bool.and_eq_true, Bool.if_false_left]
    tauto
  · rfl

theorem c6_scan_flat_amended_witness :
    (["r", "a.txt"] ∈ scan_directory fsFlat ["r"] false ↔
      (["r", "a.txt"] ∈ fsFlat.files.map Prod.fst ∨ ["r", "a.txt"] ∈ fsFlat.dirs) ∧
        isDirectChild ["r"] ["r", "a.txt"] = true ∧ txtName ["r", "a.txt"] = true) ∧
    scan_directory fsFlat ["r"] false = [["r", "a.txt"], ["r", "b.txt"]] :=
  c6_scan_flat_amended fsFlat ["r"] ["r", "a.txt"] (by decide)

/-- C7: with no output root the Destination Resolver yields the source path
itself, and the loop body then writes the transformed content back to
exactly the path it read, for every file. -/
theorem c7_inplace_destination :
    (∀ (anchor p : FsPath), resolveDest none anchor p = p) ∧
    (∀ (anchor : FsPath) (target swap : String) (prependArg appendArg : Option String)
      (fs : FS) (p : FsPath),
      processOne anchor target swap prependArg appendArg none fs p =
        match readFS fs p with
        | Except.error e => Except.error e
        | Except.ok content =>
          writeFS fs p (edit_file_content content target swap prependArg appendArg)) := by
  refine ⟨fun anchor p => rfl, ?_⟩
  intro anchor target swap prependArg appendArg fs p
  unfold processOne
  cases readFS fs p <;> rfl

/-- C8: with an output root, every file of the run is resolved against the
single anchor computed from the first file of the File Set (the directory
containing it), the destination being the output root joined with the
source path relative to that anchor; a successful step has written the
transformed content at that destination and its missing parent directories
were created before the write. The sibling-subtree scenario shows the second
file is resolved against the first file's directory. -/
theorem c8_output_destination :
    (∀ (fs : FS) (files : List FsPath) (target swap : String)
      (prependArg appendArg : Option String) (output_dir : Option FsPath),
      process_files fs files target swap prependArg appendArg output_dir =
        processGo ((files.headD []).dropLast) target swap prependArg appendArg output_dir
          files 0 0 [] fs) ∧
    (∀ (anchor : FsPath) (target swap : String) (prependArg appendArg : Option String)
      (od : FsPath) (fs : FS) (p : FsPath) (fs' : FS),
      processOne anchor target swap prependArg appendArg (some od) fs p = Except.ok fs' →
      ∃ content, readFS fs p = Except.ok content ∧
        getFile fs'.files (resolveDest (some od) anchor p) =
          some (edit_file_content content target swap prependArg appendArg) ∧
        fs'.dirs.contains ((resolveDest (some od) anchor p).dropLast) = true) ∧
    ((process_files fsSib [["r", "a", "f1.txt"], ["r", "b", "f2.txt"]] "x" "y" none none
        (some ["o"])).1 = 2 ∧
      getFile (process_files fsSib [["r", "a", "f1.txt"], ["r", "b", "f2.txt"]] "x" "y"
        none none (some ["o"])).2.2.2.files ["o", "f1.txt"] = some "y1" ∧
      getFile (process_files fsSib [["r", "a", "f1.txt"], ["r", "b", "f2.txt"]] "x" "y"
        none none (some ["o"])).2.2.2.files ["o", "..", "b", "f2.txt"] = some "y2") := by
  refine ⟨fun fs files target swap prependArg appendArg output_dir => rfl, ?_, rfl, rfl, rfl⟩
  intro anchor target swap prependArg appendArg od fs p fs' hok
  unfold processOne at hok
  cases hread : readFS fs p with
  | error e =>
    rw [hread] at hok
    exact absurd hok (by simp)
  | ok content =>
    rw [hread] at hok
    have hok' : writeFS (makedirsFS fs ((resolveDest (some od) anchor p).dropLast))
        (resolveDest (some od) anchor p)
        (edit_file_content content target swap prependArg appendArg) = Except.ok fs' := hok
    refine ⟨content, rfl, ?_⟩
    have hc : (makedirsFS fs ((resolveDest (some od) anchor p).dropLast)).dirs.contains
        ((resolveDest (some od) anchor p).dropLast) = true :=
      List.elem_eq_true_of_mem (List.mem_append_right _
        ((List.mem_inits _ _).mpr (List.prefix_refl _)))
    unfold writeFS at hok'
    rw [if_pos hc] at hok'
    injection hok' with hfs
    subst hfs
    exact ⟨getFile_setFile _ _ _, hc⟩

theorem c8_output_destination_witness :
    ∃ content, readFS fsOne ["r", "f.txt"] = Except.ok content ∧
      getFile fsOneAfter.files (resolveDest (some ["o"]) ["r"] ["r", "f.txt"]) =
        some (edit_file_content content "x" "y" none none) ∧
      fsOneAfter.dirs.contains ((resolveDest (some ["o"]) ["r"] ["r", "f.txt"]).dropLast) =
        true :=
  c8_output_destination.2.1 ["r"] "x" "y" none none ["o"] fsOne ["r", "f.txt"] fsOneAfter
    (by rfl)

/-- C9: the confirmation loop accepts y/yes case-insensitively as true and
n/no as false, re-prompts on any other answer without side effects, and a
false answer short-circuits the run: main leaves the filesystem untouched,
so no file is read or written and the Batch Runner is never invoked. -/
theorem c9_confirmation_gate :
    (∀ (r : String) (rest : List String),
      (strLower r == "y" || strLower r == "yes") = true →
      confirm_operation (r :: rest) = some true) ∧
    (∀ (r : String) (rest : List String),
      (strLower r == "n" || strLower r == "no") = true →
      confirm_operation (r :: rest) = some false) ∧
    (∀ (r : String) (rest : List String),
      (strLower r == "y" || strLower r == "yes") = false →
      (strLower r == "n" || strLower r == "no") = false →
      confirm_operation (r :: rest) = confirm_operation rest) ∧
    (∀ (fs : FS) (inputs : List String) (path : FsPath) (target swap : String)
      (prependArg appendArg : Option String) (recursive : Bool) (output : Option FsPath),
      confirm_operation inputs = some false →
      main fs inputs path target swap prependArg appendArg recursive output = fs) := by
  refine ⟨?_, ?_, ?_, ?_⟩
  · intro r rest h
    simp only [confirm_operation]
    rw [if_pos h]
  · intro r rest h
    have hy : (strLower r == "y" || strLower r == "yes") = false := by
      rcases Bool.or_eq_true_iff.mp h with h1 | h1
      · have hr : strLower r = "n" := by simpa using h1
        rw [hr]
        decide
      · have hr : strLower r = "no" := by simpa using h1
        rw [hr]
        decide
    simp only [confirm_operation]
    rw [if_neg (by simp [hy]), if_pos h]
  · intro r rest hy hn
    simp only [confirm_operation]
    rw [if_neg (by simp [hy]), if_neg (by simp [hn])]
  · intro fs inputs path target swap prependArg appendArg recursive output h
    simp [main, h]

theorem c9_confirmation_gate_witness :
    confirm_operation ["Y"] = some true ∧
    confirm_operation ["No", "y"] = some false ∧
    confirm_operation ["maybe", "y"] = confirm_operation ["y"] ∧
    main fsOne ["n"] ["r"] "x" "y" none none false none = fsOne :=
  ⟨c9_confirmation_gate.1 "Y" [] (by decide),
   c9_confirmation_gate.2.1 "No" ["y"] (by decide),
   c9_confirmation_gate.2.2.1 "maybe" ["y"] (by decide) (by decide),
   c9_confirmation_gate.2.2.2 fsOne ["n"] ["r"] "x" "y" none none false none (by decide)⟩

/-- C10: the Batch Runner accounts for every input file exactly once: the
success and failure counters sum to the number of files, and the error log
holds exactly one entry per failure. -/
theorem c10_accounting (fs : FS) (files : List FsPath) (target swap : String)
    (prependArg appendArg : Option String) (output_dir : Option FsPath) :
    (process_files fs files target swap prependArg appendArg output_dir).1 +
        (process_files fs files target swap prependArg appendArg output_dir).2.1 =
      files.length ∧
    (process_files fs files target swap prependArg appendArg output_dir).2.2.1.length =
      (process_files fs files target swap prependArg appendArg output_dir).2.1 := by
  obtain ⟨h1, h2⟩ := processGo_counts ((files.headD []).dropLast) target swap prependArg
    appendArg output_dir files 0 0 [] fs
  unfold process_files
  constructor
  · simpa using h1
  · simpa using h2

end CaptionEdit
